import Mathlib

/-!
Shallow embedding of the `options` crate: the columnar contract data
(`OptData`), option batches (`Options`), the Black-Scholes pricing model,
the batch partitioner (`chunk_opt` / `collect_chunks`) and the record
flattening (`to_records`).

Conventions of the embedding:
* Rust `Vec` columns become `List`s; stored `f64` data is modelled
  exactly over `ℚ` (every finite `f64` is a rational) so the data-model
  operations stay executable, while the pricing mathematics is carried
  out over `ℝ` after casting; `chrono` timestamps become whole seconds
  (`ℤ`), so that the `num_seconds` of a timestamp difference is plain
  subtraction.
* a Rust abort (index out of bounds, usize underflow, remainder by zero,
  an explicit abort call) is modelled as `Option.none`; code that cannot
  abort returns `some`.
-/

namespace OptionsRepo

/-- Option type tag (src/src/options_struct/mod.rs, `enum OptTypes`). -/
inductive OptTypes
  | Call
  | Put
deriving DecidableEq

/-- Greeks record (src/src/greeks/mod.rs, `struct Greeks`). -/
structure Greeks where
  delta : ℝ
  gamma : ℝ
  vega : ℝ
  theta : ℝ
  rho : ℝ

/-- All-zero default Greeks (src/src/greeks/mod.rs, `impl Default for Greeks`). -/
def Greeks.default : Greeks := ⟨0, 0, 0, 0, 0⟩

/-- Columnar contract data (src/src/opt_data/mod.rs, `struct OptData`). -/
structure OptData where
  tickers : List String
  opt_types : List OptTypes
  underlying : List ℚ
  strike : List ℚ
  settles : List ℤ
  maturities : List ℤ
  duration : List ℚ
  dividend : List ℚ
  rfr : List ℚ
  volatility : List ℚ

/-- Seconds per year (src/src/opt_data/mod.rs, `SEC_YEAR`); the product
`60.0 * 60.0 * 24.0 * 365.25` is exact in `f64`. -/
def SEC_YEAR : ℚ := 60.0 * 60.0 * 24.0 * 365.25

/-- Duration computation (src/src/opt_data/mod.rs, `OptData::get_durs`).
The Rust loop runs over the indices of `settles` and reads
`maturities[i]`, aborting out of bounds when `maturities` is shorter than
`settles`; hence the guard.  Under the guard, entry `i` is
`(maturities[i] - settles[i]) / SEC_YEAR`. -/
def get_durs (settles maturities : List ℤ) : Option (List ℚ) :=
  if settles.length ≤ maturities.length then
    some ((settles.zip maturities).map fun p => ((p.2 - p.1 : ℤ) : ℚ) / SEC_YEAR)
  else none

/-- Literal constructor (src/src/opt_data/mod.rs, `OptData::new`): stores
the 9 raw columns unchanged and recomputes `duration` via `get_durs`.
There is no cross-column length check in the source. -/
def OptData.new (tickers : List String) (opt_types : List OptTypes)
    (underlying strike : List ℚ) (settles maturities : List ℤ)
    (dividend rfr volatility : List ℚ) : Option OptData :=
  (get_durs settles maturities).map fun duration =>
    { tickers := tickers, opt_types := opt_types, underlying := underlying,
      strike := strike, settles := settles, maturities := maturities,
      duration := duration, dividend := dividend, rfr := rfr,
      volatility := volatility }

/-- Empty contract set (src/src/opt_data/mod.rs, `impl Default for OptData`). -/
def OptData.default : OptData :=
  { tickers := [], opt_types := [], underlying := [], strike := [],
    settles := [], maturities := [], duration := [], dividend := [],
    rfr := [], volatility := [] }

/-- Option batch (src/src/options_struct/mod.rs, `struct Options`).  The
pricing model field is the stateless `BlackScholesModel` in every
construction the claims touch (`Options::new` calls in `chunk_opt` and
`Options::default` both build one), so it carries no data and is not
represented; `iter_count` is dead state for the claims and also omitted. -/
structure Options where
  opt_data : OptData
  prices : List ℝ
  greeks : List Greeks

/-- Batch constructor (src/src/options_struct/mod.rs, `Options::new`):
prices and greeks start empty. -/
def Options.new (opt_data : OptData) : Options :=
  { opt_data := opt_data, prices := [], greeks := [] }

/-- Empty batch (src/src/options_struct/mod.rs, `impl Default for Options`). -/
def Options.default : Options :=
  { opt_data := OptData.default, prices := [], greeks := [] }

/-- Mirrors a Rust `for i in 0..n` loop pushing one value per iteration
into a vector, where an iteration can abort: `none` as soon as one step
aborts, otherwise the pushed values in loop order. -/
def collectRange {α : Type*} (f : ℕ → Option α) : ℕ → Option (List α)
  | 0 => some []
  | n + 1 => do
    let xs ← collectRange f n
    let x ← f n
    pure (xs ++ [x])

theorem collectRange_eq_map {α : Type*} (f : ℕ → Option α) (g : ℕ → α) :
    ∀ n : ℕ, (∀ i, i < n → f i = some (g i)) →
      collectRange f n = some ((List.range n).map g)
  | 0, _ => rfl
  | n + 1, h => by
    have ih := collectRange_eq_map f g n fun i hi => h i (Nat.lt_succ_of_lt hi)
    simp [collectRange, ih, h n (Nat.lt_succ_self n), List.range_succ]

theorem collectRange_forall {α : Type*} {P : α → Prop} (f : ℕ → Option α)
    (hf : ∀ i x, f i = some x → P x) :
    ∀ (n : ℕ) (xs : List α), collectRange f n = some xs → ∀ x ∈ xs, P x := by
  intro n
  induction n with
  | zero =>
    intro xs h x hx
    simp only [collectRange] at h
    injection h with h
    subst h
    simp at hx
  | succ n ih =>
    intro xs h x hx
    have h' : (collectRange f n).bind
        (fun ys => (f n).bind (fun y => some (ys ++ [y]))) = some xs := h
    rcases Option.bind_eq_some.mp h' with ⟨ys, hys, h2⟩
    rcases Option.bind_eq_some.mp h2 with ⟨y, hy, h3⟩
    injection h3 with h3
    subst h3
    rcases List.mem_append.mp hx with hmem | hmem
    · exact ih ys hys x hmem
    · have hxy : x = y := List.mem_singleton.mp hmem
      exact hf n x (hxy ▸ hy)

/-- Rust slice `v[a..b]` (src/src/utilities/mod.rs uses it on every
column): aborts when the upper bound exceeds the vector length. -/
def sliceCol {α : Type*} (l : List α) (a b : ℕ) : Option (List α) :=
  if b ≤ l.length then some ((l.drop a).take (b - a)) else none

/-- One chunk construction inside `chunk_opt` (src/src/utilities/mod.rs):
slice the 9 raw columns to `[a..b)` and rebuild through `OptData::new`
(which recomputes durations for the slice). -/
def sliceData (od : OptData) (a b : ℕ) : Option OptData := do
  let t ← sliceCol od.tickers a b
  let ty ← sliceCol od.opt_types a b
  let u ← sliceCol od.underlying a b
  let k ← sliceCol od.strike a b
  let s ← sliceCol od.settles a b
  let m ← sliceCol od.maturities a b
  let dv ← sliceCol od.dividend a b
  let r ← sliceCol od.rfr a b
  let v ← sliceCol od.volatility a b
  OptData.new t ty u k s m dv r v

/-- Batch splitter (src/src/utilities/mod.rs, `chunk_opt`).
Faithful points of the source:
* `chunks = (n_options as f64 / size as f64) as usize` truncates toward
  zero, i.e. floor division `n / size` (exact for any realistic sizes);
* `remaining = n_options % size` aborts on remainder by zero, so
  `size = 0` is `none`;
* the loop `for i in 0..=(chunks - 1)` underflows `usize` when
  `chunks = 0` (every batch with fewer rows than `size`, including the
  empty batch), an abort, so `chunks = 0` is `none`;
* after the loop the variable `idx` still holds `(chunks - 1) * size`,
  and the remainder branch slices `[idx..n_options]` from there — the
  source really reuses the start of the LAST FULL CHUNK. -/
def chunk_opt (opt : Options) (size : ℕ) : Option (List Options) :=
  let n_options := opt.opt_data.tickers.length
  if size = 0 then none
  else
    let chunks := n_options / size
    let remaining := n_options % size
    if chunks = 0 then none
    else do
      let full ← collectRange
        (fun i => (sliceData opt.opt_data (i * size) (i * size + size)).map Options.new)
        chunks
      if remaining ≠ 0 then
        let last ← (sliceData opt.opt_data ((chunks - 1) * size) n_options).map Options.new
        pure (full ++ [last])
      else
        pure full

/-- One `extend` round of `collect_chunks` (src/src/utilities/mod.rs):
append every field of `o` to the accumulator, prices and greeks included. -/
def append_opt (acc o : Options) : Options :=
  { opt_data :=
      { tickers := acc.opt_data.tickers ++ o.opt_data.tickers,
        opt_types := acc.opt_data.opt_types ++ o.opt_data.opt_types,
        underlying := acc.opt_data.underlying ++ o.opt_data.underlying,
        strike := acc.opt_data.strike ++ o.opt_data.strike,
        settles := acc.opt_data.settles ++ o.opt_data.settles,
        maturities := acc.opt_data.maturities ++ o.opt_data.maturities,
        duration := acc.opt_data.duration ++ o.opt_data.duration,
        dividend := acc.opt_data.dividend ++ o.opt_data.dividend,
        rfr := acc.opt_data.rfr ++ o.opt_data.rfr,
        volatility := acc.opt_data.volatility ++ o.opt_data.volatility },
    prices := acc.prices ++ o.prices,
    greeks := acc.greeks ++ o.greeks }

/-- Batch merger (src/src/utilities/mod.rs, `collect_chunks`): fold all
chunks onto `Options::default`. -/
def collect_chunks (opts : List Options) : Options :=
  opts.foldl append_opt Options.default

/-- All columns of the contract set have the row count given by the
tickers column (the invariant the source uses `tickers.len()` for). -/
def Aligned (od : OptData) : Prop :=
  od.opt_types.length = od.tickers.length ∧
  od.underlying.length = od.tickers.length ∧
  od.strike.length = od.tickers.length ∧
  od.settles.length = od.tickers.length ∧
  od.maturities.length = od.tickers.length ∧
  od.duration.length = od.tickers.length ∧
  od.dividend.length = od.tickers.length ∧
  od.rfr.length = od.tickers.length ∧
  od.volatility.length = od.tickers.length

instance (od : OptData) : Decidable (Aligned od) := by
  unfold Aligned
  infer_instance

/-! ## The Black-Scholes pricing model
(src/src/pricing_models/black_scholes/mod.rs).  `statrs`'s
`Normal::new(0.0, 1.0)` supplies the standard normal density `pdf` and
distribution function `cdf`; they are embedded as `normPdf` / `normCdf`. -/

/-- Standard normal density, `n.pdf` for `Normal::new(0.0, 1.0)`. -/
noncomputable def normPdf (x : ℝ) : ℝ :=
  (Real.sqrt (2 * Real.pi))⁻¹ * Real.exp (-(x ^ 2) / 2)

/-- Standard normal distribution function, `n.cdf` for
`Normal::new(0.0, 1.0)`. -/
noncomputable def normCdf (x : ℝ) : ℝ :=
  ∫ t in Set.Iio x, normPdf t

/-- `BlackScholesModel::get_d1`; `volatility.powf(2.0)` is the square. -/
noncomputable def get_d1 (underlying strike dividend rfr volatility duration : ℝ) : ℝ :=
  (1 / (volatility * Real.sqrt duration)) *
    (Real.log (underlying / strike) +
      duration * (rfr - dividend + volatility ^ 2 / 2))

/-- `BlackScholesModel::get_d2`. -/
noncomputable def get_d2 (d1 volatility duration : ℝ) : ℝ :=
  d1 - volatility * Real.sqrt duration

/-- The per-row body of `BlackScholesModel::get_price`: the `if` on the
option type with the Call and Put closed forms.  (The `else` arm of the
source is unreachable: the enum has exactly these two variants.) -/
noncomputable def price_row (ty : OptTypes)
    (underlying strike dividend rfr volatility duration : ℝ) : ℝ :=
  let d1 := get_d1 underlying strike dividend rfr volatility duration
  let d2 := get_d2 d1 volatility duration
  match ty with
  | OptTypes.Call =>
      underlying * Real.exp (-dividend * duration) * normCdf d1 -
        strike * Real.exp (-rfr * duration) * normCdf d2
  | OptTypes.Put =>
      strike * Real.exp (-rfr * duration) * normCdf (-d2) -
        underlying * Real.exp (-dividend * duration) * normCdf (-d1)

/-- Inner `get_delta` of `BlackScholesModel::get_greeks`. -/
noncomputable def get_delta (ty : OptTypes) (d1 dividend duration : ℝ) : ℝ :=
  match ty with
  | OptTypes.Call => Real.exp (-(dividend * duration)) * normCdf d1
  | OptTypes.Put => Real.exp (-(dividend * duration)) * (normCdf d1 - 1)

/-- Inner `get_gamma` of `BlackScholesModel::get_greeks`. -/
noncomputable def get_gamma (d1 dividend duration underlying volatility : ℝ) : ℝ :=
  Real.exp (-(dividend * duration)) / (underlying * volatility * Real.sqrt duration) *
    normPdf d1

/-- Inner `get_vega` of `BlackScholesModel::get_greeks`. -/
noncomputable def get_vega (d1 underlying dividend duration : ℝ) : ℝ :=
  1 / 100 * underlying * Real.exp (-(dividend * duration)) * Real.sqrt duration *
    normPdf d1

/-- Inner `get_theta` of `BlackScholesModel::get_greeks`, with the
source's own parenthesisation: the leading term is
`(U * sigma * exp(-(q*T))) / 2.0 * T.sqrt()`, i.e. the half-product is
MULTIPLIED by `sqrt T` (`a / 2.0 * b` groups as `(a / 2.0) * b` in Rust). -/
noncomputable def get_theta (ty : OptTypes)
    (d1 d2 underlying dividend duration strike rfr volatility : ℝ) : ℝ :=
  match ty with
  | OptTypes.Call =>
      (1 / 365.25) *
        (-(underlying * volatility * Real.exp (-(dividend * duration)) / 2 *
            Real.sqrt duration * normPdf d1) -
          rfr * strike * Real.exp (-(rfr * duration)) * normCdf d2 +
          dividend * underlying * Real.exp (-(dividend * duration)) * normCdf d1)
  | OptTypes.Put =>
      (1 / 365.25) *
        (-(underlying * volatility * Real.exp (-(dividend * duration)) / 2 *
            Real.sqrt duration * normPdf d1) +
          rfr * strike * Real.exp (-(rfr * duration)) * normCdf (-d2) -
          dividend * underlying * Real.exp (-(dividend * duration)) * normCdf (-d1))

/-- Inner `get_rho` of `BlackScholesModel::get_greeks`. -/
noncomputable def get_rho (ty : OptTypes) (d2 strike duration rfr : ℝ) : ℝ :=
  match ty with
  | OptTypes.Call =>
      1 / 100 * strike * duration * Real.exp (-(rfr * duration)) * normCdf d2
  | OptTypes.Put =>
      -1 / 100 * strike * duration * Real.exp (-(rfr * duration)) * normCdf (-d2)

/-- One `Greeks` row as pushed by `BlackScholesModel::get_greeks`, with
`d1`/`d2` computed from the same row. -/
noncomputable def greeks_row (ty : OptTypes)
    (underlying strike dividend rfr volatility duration : ℝ) : Greeks :=
  let d1 := get_d1 underlying strike dividend rfr volatility duration
  let d2 := get_d2 d1 volatility duration
  { delta := get_delta ty d1 dividend duration,
    gamma := get_gamma d1 dividend duration underlying volatility,
    vega := get_vega d1 underlying dividend duration,
    theta := get_theta ty d1 d2 underlying dividend duration strike rfr volatility,
    rho := get_rho ty d2 strike duration rfr }

/-- Row access of `get_price`: all the per-iteration column reads (each
can abort out of bounds), then the priced value. -/
noncomputable def priceAt (od : OptData) (i : ℕ) : Option ℝ := do
  let ty ← od.opt_types[i]?
  let u ← od.underlying[i]?
  let k ← od.strike[i]?
  let q ← od.dividend[i]?
  let r ← od.rfr[i]?
  let v ← od.volatility[i]?
  let t ← od.duration[i]?
  pure (price_row ty (u : ℝ) (k : ℝ) (q : ℝ) (r : ℝ) (v : ℝ) (t : ℝ))

/-- `BlackScholesModel::get_price`: one price per row of the batch, in
row order; the loop runs over `tickers.len()`. -/
noncomputable def BlackScholesModel.get_price (o : Options) : Option (List ℝ) :=
  collectRange (priceAt o.opt_data) o.opt_data.tickers.length

/-- Row access of `get_greeks` (same reads, then one `Greeks` value). -/
noncomputable def greeksAt (od : OptData) (i : ℕ) : Option Greeks := do
  let ty ← od.opt_types[i]?
  let u ← od.underlying[i]?
  let k ← od.strike[i]?
  let q ← od.dividend[i]?
  let r ← od.rfr[i]?
  let v ← od.volatility[i]?
  let t ← od.duration[i]?
  pure (greeks_row ty (u : ℝ) (k : ℝ) (q : ℝ) (r : ℝ) (v : ℝ) (t : ℝ))

/-- `BlackScholesModel::get_greeks`: one `Greeks` per row, in row order. -/
noncomputable def BlackScholesModel.get_greeks (o : Options) : Option (List Greeks) :=
  collectRange (greeksAt o.opt_data) o.opt_data.tickers.length

/-- `Options::get_prices` (src/src/options_struct/mod.rs): overwrite the
`prices` field with the model output. -/
noncomputable def Options.get_prices (o : Options) : Option Options :=
  (BlackScholesModel.get_price o).map fun ps => { o with prices := ps }

/-- `Options::get_greeks` (src/src/options_struct/mod.rs): overwrite the
`greeks` field with the model output. -/
noncomputable def Options.get_greeks (o : Options) : Option Options :=
  (BlackScholesModel.get_greeks o).map fun gs => { o with greeks := gs }

/-- Flat output record (src/src/options_struct/mod.rs, `to_records`): 16
fields per contract row.  The source stringifies every field; the
embedding keeps the typed values, field for field in the source's order. -/
structure Record where
  ticker : String
  opt_type : OptTypes
  underlying : ℚ
  strike : ℚ
  settle : ℤ
  maturity : ℤ
  duration : ℚ
  dividend : ℚ
  rfr : ℚ
  volatility : ℚ
  price : ℝ
  delta : ℝ
  gamma : ℝ
  vega : ℝ
  theta : ℝ
  rho : ℝ

/-- One row flattened by `to_records` (every column read can abort out of
bounds when a column is shorter than `tickers`). -/
def recordAt (o : Options) (i : ℕ) : Option Record := do
  let t ← o.opt_data.tickers[i]?
  let ty ← o.opt_data.opt_types[i]?
  let u ← o.opt_data.underlying[i]?
  let k ← o.opt_data.strike[i]?
  let s ← o.opt_data.settles[i]?
  let m ← o.opt_data.maturities[i]?
  let dur ← o.opt_data.duration[i]?
  let q ← o.opt_data.dividend[i]?
  let r ← o.opt_data.rfr[i]?
  let v ← o.opt_data.volatility[i]?
  let p ← o.prices[i]?
  let g ← o.greeks[i]?
  pure ⟨t, ty, u, k, s, m, dur, q, r, v, p, g.delta, g.gamma, g.vega, g.theta, g.rho⟩

/-- `Options::to_records` (src/src/options_struct/mod.rs): the explicit
emptiness guard of the source — it aborts when `prices` or `greeks` is
EMPTY (the check is on emptiness only, not on length against the row
count) — then one record per `tickers` index. -/
def to_records (o : Options) : Option (List Record) :=
  if o.prices.length = 0 ∨ o.greeks.length = 0 then none
  else collectRange (recordAt o) o.opt_data.tickers.length

/-! ## Formulas as the specification words them (spec §4.3)
Used only to compare the source-derived definitions against the spec. -/

/-- d1 as written in the spec: `[ln(U/K) + T*(r - q + sigma^2/2)] / (sigma*sqrt T)`. -/
noncomputable def spec_d1 (u k q r v t : ℝ) : ℝ :=
  (Real.log (u / k) + t * (r - q + v ^ 2 / 2)) / (v * Real.sqrt t)

/-- d2 as written in the spec: `d1 - sigma*sqrt T`. -/
noncomputable def spec_d2 (u k q r v t : ℝ) : ℝ :=
  spec_d1 u k q r v t - v * Real.sqrt t

/-- Price as written in the spec (§4.3). -/
noncomputable def spec_price (ty : OptTypes) (u k q r v t : ℝ) : ℝ :=
  match ty with
  | OptTypes.Call =>
      u * Real.exp (-q * t) * normCdf (spec_d1 u k q r v t) -
        k * Real.exp (-r * t) * normCdf (spec_d2 u k q r v t)
  | OptTypes.Put =>
      k * Real.exp (-r * t) * normCdf (-spec_d2 u k q r v t) -
        u * Real.exp (-q * t) * normCdf (-spec_d1 u k q r v t)

/-- Theta as written in the spec (§4.3): the leading term is
`U*sigma*exp(-qT)*pdf(d1)` DIVIDED by `2*sqrt T`. -/
noncomputable def spec_theta (ty : OptTypes) (u k q r v t : ℝ) : ℝ :=
  let d1 := spec_d1 u k q r v t
  let d2 := spec_d2 u k q r v t
  match ty with
  | OptTypes.Call =>
      (1 / 365.25) *
        (-(u * v * Real.exp (-q * t) * normPdf d1 / (2 * Real.sqrt t)) -
          r * k * Real.exp (-r * t) * normCdf d2 +
          q * u * Real.exp (-q * t) * normCdf d1)
  | OptTypes.Put =>
      (1 / 365.25) *
        (-(u * v * Real.exp (-q * t) * normPdf d1 / (2 * Real.sqrt t)) +
          r * k * Real.exp (-r * t) * normCdf (-d2) -
          q * u * Real.exp (-q * t) * normCdf (-d1))

/-! ## Facts about the standard normal density and distribution -/

theorem normPdf_nonneg (x : ℝ) : 0 ≤ normPdf x := by
  unfold normPdf
  positivity

theorem normPdf_pos (x : ℝ) : 0 < normPdf x := by
  unfold normPdf
  have h : 0 < Real.sqrt (2 * Real.pi) := Real.sqrt_pos.mpr (by positivity)
  positivity

theorem normPdf_neg (x : ℝ) : normPdf (-x) = normPdf x := by
  unfold normPdf
  rw [neg_sq]

theorem normPdf_eq_gauss :
    normPdf = fun x => (Real.sqrt (2 * Real.pi))⁻¹ * Real.exp (-(1 / 2 : ℝ) * x ^ 2) := by
  funext x
  unfold normPdf
  rw [show -(x ^ 2) / 2 = -(1 / 2 : ℝ) * x ^ 2 by ring]

theorem integrable_normPdf : MeasureTheory.Integrable normPdf := by
  rw [normPdf_eq_gauss]
  exact (integrable_exp_neg_mul_sq (by norm_num)).const_mul _

theorem integral_normPdf : ∫ x, normPdf x = 1 := by
  rw [normPdf_eq_gauss, MeasureTheory.integral_mul_left, integral_gaussian,
    show Real.pi / (1 / 2 : ℝ) = 2 * Real.pi by ring]
  exact inv_mul_cancel₀ (Real.sqrt_ne_zero'.mpr (by positivity))

theorem normCdf_neg_eq (x : ℝ) : normCdf (-x) = ∫ t in Set.Ioi x, normPdf t := by
  unfold normCdf
  rw [← MeasureTheory.integral_Iic_eq_integral_Iio, ← integral_comp_neg_Ioi]
  exact MeasureTheory.setIntegral_congr_fun measurableSet_Ioi fun t _ => normPdf_neg t

/-- The symmetry identity of the standard normal distribution function. -/
theorem normCdf_add_neg (x : ℝ) : normCdf x + normCdf (-x) = 1 := by
  rw [normCdf_neg_eq]
  unfold normCdf
  rw [← MeasureTheory.integral_Iic_eq_integral_Iio,
    intervalIntegral.integral_Iic_add_Ioi integrable_normPdf.integrableOn
      integrable_normPdf.integrableOn,
    integral_normPdf]

/-! ## Row-access lemmas for aligned batches -/

theorem getD_of_lt {α : Type*} (l : List α) (i : ℕ) (d : α) (h : i < l.length) :
    l[i]? = some (l.getD i d) := by
  rw [List.getD_eq_getElem l d h, List.getElem?_eq_getElem h]

theorem getD_range_map {α : Type*} (n : ℕ) (g : ℕ → α) (i : ℕ) (h : i < n) (d : α) :
    (((List.range n).map g).getD i d) = g i := by
  rw [List.getD_eq_getElem _ d (by simpa using h)]
  simp

theorem priceAt_eq (od : OptData) (hA : Aligned od) (i : ℕ)
    (hi : i < od.tickers.length) :
    priceAt od i = some (price_row (od.opt_types.getD i OptTypes.Call)
      ((od.underlying.getD i 0 : ℚ) : ℝ) ((od.strike.getD i 0 : ℚ) : ℝ)
      ((od.dividend.getD i 0 : ℚ) : ℝ) ((od.rfr.getD i 0 : ℚ) : ℝ)
      ((od.volatility.getD i 0 : ℚ) : ℝ) ((od.duration.getD i 0 : ℚ) : ℝ)) := by
  obtain ⟨h1, h2, h3, h4, h5, h6, h7, h8, h9⟩ := hA
  simp only [priceAt, getD_of_lt od.opt_types i OptTypes.Call (h1 ▸ hi),
    getD_of_lt od.underlying i 0 (h2 ▸ hi), getD_of_lt od.strike i 0 (h3 ▸ hi),
    getD_of_lt od.dividend i 0 (h7 ▸ hi), getD_of_lt od.rfr i 0 (h8 ▸ hi),
    getD_of_lt od.volatility i 0 (h9 ▸ hi), getD_of_lt od.duration i 0 (h6 ▸ hi),
    Option.bind_eq_bind, Option.some_bind, Option.pure_def]

theorem greeksAt_eq (od : OptData) (hA : Aligned od) (i : ℕ)
    (hi : i < od.tickers.length) :
    greeksAt od i = some (greeks_row (od.opt_types.getD i OptTypes.Call)
      ((od.underlying.getD i 0 : ℚ) : ℝ) ((od.strike.getD i 0 : ℚ) : ℝ)
      ((od.dividend.getD i 0 : ℚ) : ℝ) ((od.rfr.getD i 0 : ℚ) : ℝ)
      ((od.volatility.getD i 0 : ℚ) : ℝ) ((od.duration.getD i 0 : ℚ) : ℝ)) := by
  obtain ⟨h1, h2, h3, h4, h5, h6, h7, h8, h9⟩ := hA
  simp only [greeksAt, getD_of_lt od.opt_types i OptTypes.Call (h1 ▸ hi),
    getD_of_lt od.underlying i 0 (h2 ▸ hi), getD_of_lt od.strike i 0 (h3 ▸ hi),
    getD_of_lt od.dividend i 0 (h7 ▸ hi), getD_of_lt od.rfr i 0 (h8 ▸ hi),
    getD_of_lt od.volatility i 0 (h9 ▸ hi), getD_of_lt od.duration i 0 (h6 ▸ hi),
    Option.bind_eq_bind, Option.some_bind, Option.pure_def]

theorem get_price_aligned (o : Options) (hA : Aligned o.opt_data) :
    BlackScholesModel.get_price o =
      some ((List.range o.opt_data.tickers.length).map fun i =>
        price_row (o.opt_data.opt_types.getD i OptTypes.Call)
          ((o.opt_data.underlying.getD i 0 : ℚ) : ℝ)
          ((o.opt_data.strike.getD i 0 : ℚ) : ℝ)
          ((o.opt_data.dividend.getD i 0 : ℚ) : ℝ)
          ((o.opt_data.rfr.getD i 0 : ℚ) : ℝ)
          ((o.opt_data.volatility.getD i 0 : ℚ) : ℝ)
          ((o.opt_data.duration.getD i 0 : ℚ) : ℝ)) :=
  collectRange_eq_map _ _ _ fun i hi => priceAt_eq o.opt_data hA i hi

theorem get_greeks_aligned (o : Options) (hA : Aligned o.opt_data) :
    BlackScholesModel.get_greeks o =
      some ((List.range o.opt_data.tickers.length).map fun i =>
        greeks_row (o.opt_data.opt_types.getD i OptTypes.Call)
          ((o.opt_data.underlying.getD i 0 : ℚ) : ℝ)
          ((o.opt_data.strike.getD i 0 : ℚ) : ℝ)
          ((o.opt_data.dividend.getD i 0 : ℚ) : ℝ)
          ((o.opt_data.rfr.getD i 0 : ℚ) : ℝ)
          ((o.opt_data.volatility.getD i 0 : ℚ) : ℝ)
          ((o.opt_data.duration.getD i 0 : ℚ) : ℝ)) :=
  collectRange_eq_map _ _ _ fun i hi => greeksAt_eq o.opt_data hA i hi

/-- The record row built from `getD` reads (the value `recordAt` returns
on an aligned, fully computed batch). -/
def mkRecord (o : Options) (i : ℕ) : Record :=
  { ticker := o.opt_data.tickers.getD i "",
    opt_type := o.opt_data.opt_types.getD i OptTypes.Call,
    underlying := o.opt_data.underlying.getD i 0,
    strike := o.opt_data.strike.getD i 0,
    settle := o.opt_data.settles.getD i 0,
    maturity := o.opt_data.maturities.getD i 0,
    duration := o.opt_data.duration.getD i 0,
    dividend := o.opt_data.dividend.getD i 0,
    rfr := o.opt_data.rfr.getD i 0,
    volatility := o.opt_data.volatility.getD i 0,
    price := o.prices.getD i 0,
    delta := (o.greeks.getD i Greeks.default).delta,
    gamma := (o.greeks.getD i Greeks.default).gamma,
    vega := (o.greeks.getD i Greeks.default).vega,
    theta := (o.greeks.getD i Greeks.default).theta,
    rho := (o.greeks.getD i Greeks.default).rho }

theorem recordAt_eq (o : Options) (hA : Aligned o.opt_data)
    (hp : o.opt_data.tickers.length ≤ o.prices.length)
    (hg : o.opt_data.tickers.length ≤ o.greeks.length) (i : ℕ)
    (hi : i < o.opt_data.tickers.length) :
    recordAt o i = some (mkRecord o i) := by
  obtain ⟨h1, h2, h3, h4, h5, h6, h7, h8, h9⟩ := hA
  simp only [recordAt, mkRecord, getD_of_lt o.opt_data.tickers i "" hi,
    getD_of_lt o.opt_data.opt_types i OptTypes.Call (h1 ▸ hi),
    getD_of_lt o.opt_data.underlying i 0 (h2 ▸ hi),
    getD_of_lt o.opt_data.strike i 0 (h3 ▸ hi),
    getD_of_lt o.opt_data.settles i 0 (h4 ▸ hi),
    getD_of_lt o.opt_data.maturities i 0 (h5 ▸ hi),
    getD_of_lt o.opt_data.duration i 0 (h6 ▸ hi),
    getD_of_lt o.opt_data.dividend i 0 (h7 ▸ hi),
    getD_of_lt o.opt_data.rfr i 0 (h8 ▸ hi),
    getD_of_lt o.opt_data.volatility i 0 (h9 ▸ hi),
    getD_of_lt o.prices i 0 (lt_of_lt_of_le hi hp),
    getD_of_lt o.greeks i Greeks.default (lt_of_lt_of_le hi hg),
    Option.bind_eq_bind, Option.some_bind, Option.pure_def]

/-! ## Concrete batches used in witnesses and counterexamples -/

/-- A three-row aligned batch, literally constructed. -/
def od3 : OptData :=
  { tickers := ["a", "b", "c"],
    opt_types := [OptTypes.Call, OptTypes.Put, OptTypes.Call],
    underlying := [1, 1, 1], strike := [1, 1, 1], settles := [0, 0, 0],
    maturities := [0, 0, 0], duration := [0, 0, 0], dividend := [0, 0, 0],
    rfr := [0, 0, 0], volatility := [1, 1, 1] }

/-- The three-row batch as an unpriced `Options`. -/
def b3 : Options := Options.new od3

/-- A one-row aligned batch with `U = K = sigma = T = 1`. -/
def od1 : OptData :=
  { tickers := ["x"], opt_types := [OptTypes.Call], underlying := [1],
    strike := [1], settles := [0], maturities := [0], duration := [1],
    dividend := [0], rfr := [0], volatility := [1] }

/-! ## Helper lemmas about the partitioner -/

theorem chunk_opt_mem (o : Options) (size : ℕ) (cs : List Options)
    (h : chunk_opt o size = some cs) :
    ∀ c ∈ cs, c.prices = [] ∧ c.greeks = [] := by
  unfold chunk_opt at h
  split at h
  · simp at h
  dsimp only at h
  split at h
  · simp at h
  have h' : (collectRange
      (fun i => (sliceData o.opt_data (i * size) (i * size + size)).map Options.new)
      (o.opt_data.tickers.length / size)).bind
        (fun full =>
          if o.opt_data.tickers.length % size ≠ 0 then
            ((sliceData o.opt_data ((o.opt_data.tickers.length / size - 1) * size)
                o.opt_data.tickers.length).map Options.new).bind
              (fun last => some (full ++ [last]))
          else some full) = some cs := h
  rcases Option.bind_eq_some.mp h' with ⟨full, hfull, h2⟩
  have hfullP : ∀ c ∈ full, c.prices = [] ∧ c.greeks = [] :=
    collectRange_forall _
      (fun i x hx => by
        rcases Option.map_eq_some'.mp hx with ⟨od', _, hxval⟩
        subst hxval
        exact ⟨rfl, rfl⟩) _ full hfull
  split at h2
  · rcases Option.bind_eq_some.mp h2 with ⟨last, hlast, h3⟩
    injection h3 with h3
    subst h3
    intro c hc
    rcases List.mem_append.mp hc with hc | hc
    · exact hfullP c hc
    · rcases Option.map_eq_some'.mp hlast with ⟨od', _, hval⟩
      have hcl : c = last := List.mem_singleton.mp hc
      subst hcl
      subst hval
      exact ⟨rfl, rfl⟩
  · injection h2 with h2
    subst h2
    exact hfullP

theorem collect_chunks_outputs (cs : List Options)
    (h : ∀ c ∈ cs, c.prices = [] ∧ c.greeks = []) :
    ∀ acc : Options, (cs.foldl append_opt acc).prices = acc.prices ∧
      (cs.foldl append_opt acc).greeks = acc.greeks := by
  induction cs with
  | nil => exact fun acc => ⟨rfl, rfl⟩
  | cons c rest ih =>
    intro acc
    have hc := h c (List.mem_cons_self c rest)
    have hrest := ih (fun x hx => h x (List.mem_cons_of_mem c hx)) (append_opt acc c)
    rw [List.foldl_cons]
    refine ⟨?_, ?_⟩
    · rw [hrest.1]
      show acc.prices ++ c.prices = acc.prices
      rw [hc.1, List.append_nil]
    · rw [hrest.2]
      show acc.greeks ++ c.greeks = acc.greeks
      rw [hc.2, List.append_nil]

/-! ## The claims -/

/-- C1: the split/merge round trip fails on the source code.  On the
3-row batch `b3` with chunk size 2, `chunk_opt` emits the row ranges
`[0,2)` and `[0,3)` — the remainder chunk restarts at the start of the
last full chunk — so `collect_chunks` returns a 5-row batch whose ticker
column duplicates rows 0 and 1, instead of the original batch. -/
theorem split_merge_roundtrip_fails :
    b3.opt_data.tickers = ["a", "b", "c"] ∧
    (chunk_opt b3 2).map (fun cs => (collect_chunks cs).opt_data.tickers) =
      some ["a", "b", "a", "b", "c"] := ⟨rfl, rfl⟩

/-- C2: the partition shape is wrong on the source code.  On the 3-row
batch with chunk size 2 the source returns two chunks of sizes `[2, 3]`
(the claim demands `[2, 1]`: every non-final chunk of size 2 and a final
chunk of `3 - 1*2 = 1` rows); and on a 1-row batch with chunk size 2
(`size > N`) the source aborts by usize underflow instead of returning
one chunk equal to the whole batch. -/
theorem chunk_partition_count_fails :
    (chunk_opt b3 2).map (fun cs => cs.map fun c => c.opt_data.tickers.length) =
      some [2, 3] ∧
    chunk_opt (Options.new od1) 2 = none := ⟨rfl, rfl⟩

/-- C7 counterexample: `OptData::new` does not validate column lengths —
an input whose ticker column has 1 row while all other columns are empty
is accepted and returns a ContractSet. -/
theorem optdata_new_accepts_mismatch :
    (OptData.new ["A"] [] [] [] [] [] [] [] []).isSome = true ∧
    (["A"] : List String).length ≠ ([] : List OptTypes).length := ⟨rfl, by decide⟩

/-- C7 amended: `OptData::new` performs no cross-column length
validation; it fails (out-of-bounds abort inside the duration loop)
exactly when the settles column is longer than the maturities column,
and otherwise returns a ContractSet even when column lengths disagree. -/
theorem optdata_new_some_iff (t : List String) (o : List OptTypes)
    (u k : List ℚ) (s m : List ℤ) (dv r v : List ℚ) :
    (OptData.new t o u k s m dv r v).isSome = true ↔ s.length ≤ m.length := by
  by_cases h : s.length ≤ m.length <;> simp [OptData.new, get_durs, h]

/-- C9: on every successful construction, the duration column has the
length of the settles column, its entry `i` is
`(maturities[i] - settles[i]) / SEC_YEAR` (whole seconds over
365.25 * 86400), and the column is a function of the settles/maturities
columns alone — the constructor never takes it as an input. -/
theorem duration_derived (t : List String) (o : List OptTypes) (u k : List ℚ)
    (s m : List ℤ) (dv r v : List ℚ) (od : OptData)
    (h : OptData.new t o u k s m dv r v = some od) :
    od.duration.length = s.length ∧
    (∀ i, i < s.length →
      od.duration[i]? = some (((m[i]?.getD 0 - s[i]?.getD 0 : ℤ) : ℚ) / SEC_YEAR)) ∧
    (∀ (t' : List String) (o' : List OptTypes) (u' k' dv' r' v' : List ℚ)
      (od' : OptData),
      OptData.new t' o' u' k' s m dv' r' v' = some od' →
        od'.duration = od.duration) := by
  rcases Option.map_eq_some'.mp h with ⟨d, hd, hod⟩
  subst hod
  unfold get_durs at hd
  split at hd
  case isTrue hsm =>
    injection hd with hd
    subst hd
    refine ⟨?_, ?_, ?_⟩
    · simp [Nat.min_eq_left hsm]
    · intro i hi
      have hi' : i < m.length := lt_of_lt_of_le hi hsm
      have hzip : (s.zip m)[i]? = some (s[i], m[i]) :=
        List.getElem?_zip_eq_some.mpr
          ⟨List.getElem?_eq_getElem hi, List.getElem?_eq_getElem hi'⟩
      rw [List.getElem?_map, hzip, List.getElem?_eq_getElem hi,
        List.getElem?_eq_getElem hi']
      rfl
    · intro t' o' u' k' dv' r' v' od' h'
      rcases Option.map_eq_some'.mp h' with ⟨d', hd', hod'⟩
      subst hod'
      unfold get_durs at hd'
      rw [if_pos hsm] at hd'
      injection hd' with hd'
      subst hd'
      rfl
  case isFalse hsm => exact absurd hd (by simp)

/-- C9 witness: a concrete one-row construction, one year from settle to
maturity. -/
theorem duration_derived_witness :
    ((OptData.new ["x"] [OptTypes.Call] [1] [1] [0] [31557600] [0] [0] [1]).getD
        OptData.default).duration.length = 1 :=
  (duration_derived ["x"] [OptTypes.Call] [1] [1] [0] [31557600] [0] [0] [1] _ rfl).1

/-- C10: every sub-batch produced by `chunk_opt` has empty `prices` and
`greeks` (each chunk is rebuilt through `Options::new`, which discards
computed outputs), and therefore merging a freshly split batch also has
empty outputs: a priced batch cannot be reconstructed with its prices by
split followed by merge. -/
theorem chunk_opt_drops_outputs (o : Options) (size : ℕ) :
    (((chunk_opt o size).getD []).all
      fun c => c.prices.isEmpty && c.greeks.isEmpty) = true ∧
    (collect_chunks ((chunk_opt o size).getD [])).prices = [] ∧
    (collect_chunks ((chunk_opt o size).getD [])).greeks = [] := by
  rcases hco : chunk_opt o size with _ | cs
  · exact ⟨rfl, rfl, rfl⟩
  · have hmem := chunk_opt_mem o size cs hco
    have hfold := collect_chunks_outputs cs hmem Options.default
    refine ⟨?_, ?_, ?_⟩
    · simp only [Option.getD_some]
      exact List.all_eq_true.mpr fun c hc => by
        rcases hmem c hc with ⟨hp, hg⟩
        simp [hp, hg]
    · simpa [collect_chunks, Options.default] using hfold.1
    · simpa [collect_chunks, Options.default] using hfold.2

/-! ## Pricing-model claims -/

theorem d1_eq_spec (u k q r v t : ℝ) : get_d1 u k q r v t = spec_d1 u k q r v t := by
  unfold get_d1 spec_d1
  ring

theorem price_row_eq_spec (ty : OptTypes) (u k q r v t : ℝ) :
    price_row ty u k q r v t = spec_price ty u k q r v t := by
  cases ty <;> simp only [price_row, spec_price, get_d2, spec_d2, d1_eq_spec]

/-- C4: on every aligned batch, `BlackScholesModel::get_price` returns
one price per row, and row `i` equals the spec's closed form:
`U*exp(-qT)*cdf(d1) - K*exp(-rT)*cdf(d2)` for a Call and
`K*exp(-rT)*cdf(-d2) - U*exp(-qT)*cdf(-d1)` for a Put, with
`d1 = [ln(U/K) + T*(r - q + sigma^2/2)] / (sigma*sqrt T)` and
`d2 = d1 - sigma*sqrt T`, all read from row `i` of the ContractSet. -/
theorem get_price_matches_spec (od : OptData) (hA : Aligned od) :
    BlackScholesModel.get_price (Options.new od) =
      some ((List.range od.tickers.length).map fun i =>
        spec_price (od.opt_types.getD i OptTypes.Call)
          ((od.underlying.getD i 0 : ℚ) : ℝ) ((od.strike.getD i 0 : ℚ) : ℝ)
          ((od.dividend.getD i 0 : ℚ) : ℝ) ((od.rfr.getD i 0 : ℚ) : ℝ)
          ((od.volatility.getD i 0 : ℚ) : ℝ) ((od.duration.getD i 0 : ℚ) : ℝ)) := by
  rw [get_price_aligned (Options.new od) hA]
  simp only [Options.new, price_row_eq_spec]

/-- C4 witness: the aligned one-row batch prices successfully. -/
theorem get_price_matches_spec_witness :
    Aligned od1 ∧ (BlackScholesModel.get_price (Options.new od1)).isSome = true := by
  refine ⟨by decide, ?_⟩
  rw [get_price_matches_spec od1 (by decide)]
  rfl

/-- C5: put-call parity holds exactly for the source's price rows: for
identical U, K, q, r, sigma, T the Call price minus the Put price is
`U*exp(-qT) - K*exp(-rT)`. -/
theorem put_call_parity (u k q r v t : ℝ) :
    price_row OptTypes.Call u k q r v t - price_row OptTypes.Put u k q r v t =
      u * Real.exp (-q * t) - k * Real.exp (-r * t) := by
  simp only [price_row]
  linear_combination (u * Real.exp (-q * t)) * normCdf_add_neg (get_d1 u k q r v t) -
    (k * Real.exp (-r * t)) * normCdf_add_neg (get_d2 (get_d1 u k q r v t) v t)

theorem gamma_nonneg (d1 q t u v : ℝ) (hu : 0 ≤ u) (hv : 0 ≤ v) :
    0 ≤ get_gamma d1 q t u v := by
  unfold get_gamma
  exact mul_nonneg
    (div_nonneg (Real.exp_nonneg _)
      (mul_nonneg (mul_nonneg hu hv) (Real.sqrt_nonneg _)))
    (normPdf_nonneg _)

theorem vega_nonneg (d1 u q t : ℝ) (hu : 0 ≤ u) : 0 ≤ get_vega d1 u q t := by
  unfold get_vega
  exact mul_nonneg
    (mul_nonneg
      (mul_nonneg (mul_nonneg (by norm_num) hu) (Real.exp_nonneg _))
      (Real.sqrt_nonneg _))
    (normPdf_nonneg _)

/-- C6: on every aligned batch and every row with positive volatility,
duration and underlying, the gamma and the vega returned by
`BlackScholesModel::get_greeks` are nonnegative, for both option types
(both are a product of nonnegative factors and the normal density). -/
theorem greeks_gamma_vega_nonneg (od : OptData) (hA : Aligned od) (i : ℕ)
    (hi : i < od.tickers.length)
    (hv : 0 < od.volatility.getD i 0) (ht : 0 < od.duration.getD i 0)
    (hu : 0 < od.underlying.getD i 0) :
    ∃ gs, BlackScholesModel.get_greeks (Options.new od) = some gs ∧
      0 ≤ (gs.getD i Greeks.default).gamma ∧
      0 ≤ (gs.getD i Greeks.default).vega := by
  have hu' : (0 : ℝ) ≤ ((od.underlying.getD i 0 : ℚ) : ℝ) := by exact_mod_cast hu.le
  have hv' : (0 : ℝ) ≤ ((od.volatility.getD i 0 : ℚ) : ℝ) := by exact_mod_cast hv.le
  refine ⟨_, get_greeks_aligned (Options.new od) hA, ?_, ?_⟩
  · simp only [Options.new]
    rw [getD_range_map _ _ i hi]
    simp only [greeks_row]
    exact gamma_nonneg _ _ _ _ _ hu' hv'
  · simp only [Options.new]
    rw [getD_range_map _ _ i hi]
    simp only [greeks_row]
    exact vega_nonneg _ _ _ _ hu'

/-- C6 witness: the one-row batch with U = K = sigma = T = 1. -/
theorem greeks_gamma_vega_nonneg_witness :
    Aligned od1 ∧ 0 < od1.tickers.length ∧ (0 : ℚ) < od1.volatility.getD 0 0 ∧
    (0 : ℚ) < od1.duration.getD 0 0 ∧ (0 : ℚ) < od1.underlying.getD 0 0 ∧
    ∃ gs, BlackScholesModel.get_greeks (Options.new od1) = some gs ∧
      0 ≤ (gs.getD 0 Greeks.default).gamma ∧ 0 ≤ (gs.getD 0 Greeks.default).vega :=
  ⟨by decide, by decide, by decide, by decide, by decide,
    greeks_gamma_vega_nonneg od1 (by decide) 0 (by decide) (by decide) (by decide)
      (by decide)⟩

/-- The result of running both compute passes on an aligned batch. -/
theorem computed_batch (od : OptData) (hA : Aligned od) :
    (Options.new od).get_prices.bind Options.get_greeks =
      some { opt_data := od,
             prices := (List.range od.tickers.length).map fun i =>
               price_row (od.opt_types.getD i OptTypes.Call)
                 ((od.underlying.getD i 0 : ℚ) : ℝ) ((od.strike.getD i 0 : ℚ) : ℝ)
                 ((od.dividend.getD i 0 : ℚ) : ℝ) ((od.rfr.getD i 0 : ℚ) : ℝ)
                 ((od.volatility.getD i 0 : ℚ) : ℝ) ((od.duration.getD i 0 : ℚ) : ℝ),
             greeks := (List.range od.tickers.length).map fun i =>
               greeks_row (od.opt_types.getD i OptTypes.Call)
                 ((od.underlying.getD i 0 : ℚ) : ℝ) ((od.strike.getD i 0 : ℚ) : ℝ)
                 ((od.dividend.getD i 0 : ℚ) : ℝ) ((od.rfr.getD i 0 : ℚ) : ℝ)
                 ((od.volatility.getD i 0 : ℚ) : ℝ)
                 ((od.duration.getD i 0 : ℚ) : ℝ) } := by
  unfold Options.get_prices Options.get_greeks
  rw [get_price_aligned (Options.new od) hA, Option.map_some', Option.some_bind,
    get_greeks_aligned _ hA, Option.map_some']
  rfl

theorem to_records_success (o : Options) (hA : Aligned o.opt_data)
    (h1 : 1 ≤ o.opt_data.tickers.length)
    (hp : o.opt_data.tickers.length ≤ o.prices.length)
    (hg : o.opt_data.tickers.length ≤ o.greeks.length) :
    to_records o =
      some ((List.range o.opt_data.tickers.length).map (mkRecord o)) := by
  have hguard : ¬(o.prices.length = 0 ∨ o.greeks.length = 0) := by
    rw [not_or]
    omega
  unfold to_records
  rw [if_neg hguard]
  exact collectRange_eq_map _ _ _ fun i hi => recordAt_eq o hA hp hg i hi

/-- C8 counterexample: an empty batch on which both compute passes have
run (their outputs are the empty vectors) still fails `to_records` —
the emptiness guard fires even though the outputs were computed, so
"computed batches flatten to one record per row" fails at row count 0. -/
theorem to_records_empty_computed_fails :
    (Options.default.get_prices.bind Options.get_greeks).map to_records =
      some none := rfl

/-- C8 amended: `to_records` aborts whenever `prices` or `greeks` is
empty — in particular before the compute passes have run, and also on an
empty batch even after they have run; on a NON-EMPTY aligned batch on
which both compute passes have run it returns one 16-field record per
contract row. -/
theorem to_records_guard (od : OptData) (hA : Aligned od)
    (h1 : 1 ≤ od.tickers.length) :
    to_records (Options.new od) = none ∧
    ∃ o2 recs, (Options.new od).get_prices.bind Options.get_greeks = some o2 ∧
      to_records o2 = some recs ∧ recs.length = od.tickers.length := by
  refine ⟨by simp [to_records, Options.new], ?_⟩
  exact ⟨_, _, computed_batch od hA,
    to_records_success _ hA h1 (by simp) (by simp), by simp⟩

/-- C8 witness: the aligned one-row batch. -/
theorem to_records_guard_witness :
    Aligned od1 ∧ 1 ≤ od1.tickers.length ∧ to_records (Options.new od1) = none :=
  ⟨by decide, by decide, (to_records_guard od1 (by decide) (by decide)).1⟩

/-- C3: the theta computed by the source deviates from the spec formula.
The source's leading term reads `x / 2.0 * duration.sqrt()`, which is
`x * sqrt(T) / 2`, where the spec (the standard Black-Scholes theta)
divides by `2 * sqrt(T)`.  At U = K = 1, q = r = 0, sigma = 1, T = 4 the
source computes `-pdf(1)/365.25` where the spec value is
`-pdf(1)/1461`. -/
theorem theta_differs_from_spec :
    (greeks_row OptTypes.Call 1 1 0 0 1 4).theta ≠
      spec_theta OptTypes.Call 1 1 0 0 1 4 := by
  have h4 : Real.sqrt 4 = 2 := by
    rw [show (4 : ℝ) = 2 ^ 2 by norm_num, Real.sqrt_sq (by norm_num : (0 : ℝ) ≤ 2)]
  have hd1 : get_d1 1 1 0 0 1 4 = 1 := by
    unfold get_d1
    rw [h4]
    norm_num [Real.log_one]
  have hcode : (greeks_row OptTypes.Call 1 1 0 0 1 4).theta =
      -(1 / 365.25) * normPdf 1 := by
    simp only [greeks_row, get_theta, hd1]
    rw [h4]
    norm_num [Real.exp_zero]
  have hs1 : spec_d1 1 1 0 0 1 4 = 1 := by
    unfold spec_d1
    rw [h4]
    norm_num [Real.log_one]
  have hspec : spec_theta OptTypes.Call 1 1 0 0 1 4 =
      -(1 / 365.25) * (normPdf 1 / 4) := by
    simp only [spec_theta, hs1]
    rw [h4]
    norm_num [Real.exp_zero]
  rw [hcode, hspec]
  intro heq
  have hc : (-(1 / 365.25) : ℝ) ≠ 0 := by norm_num
  have h2 := mul_left_cancel₀ hc heq
  have h0 : normPdf 1 = 0 := by linarith
  exact (normPdf_pos 1).ne' h0

end OptionsRepo
